import Mathlib

/-!
Verification of the attributions engine of `cdklabs/node-backpack`.

The development shallowly embeds the `Attributions` class
(`src/api/_attributions.ts`, in its newer `licensesPath`/`versionsPath`
variant) together with the small host primitives it relies on:

* the filesystem is a map from paths to optional file contents,
  with `readFileSync` / `existsSync` / `writeFileSync` modelled over it;
* `String.prototype.localeCompare` is host-collation-dependent (ECMA-402
  leaves the collation to the host; an ICU-enabled host applies locale
  collation, an ICU-less build compares code points). The model fixes one
  concrete total order — code-point comparison — only so that the sort is
  executable; no theorem below depends on which total order it is, the
  sorted list is used solely as a permutation of its input;
* `RegExp.prototype.test` (used for the `exclude` option) is an
  uninterpreted boolean parameter `test : pattern → input → Bool`;
* the `license-checker` probe invocation (`fetchInfos`) is an
  uninterpreted parameter `fetch : cwd → packages → key → Option ModuleInfo`,
  one lookup per package key;
* JavaScript truthiness on optional strings (`undefined` and `""` are
  falsy) is `jsTruthy`;
* interpolation of `undefined` into a template literal yields the
  literal string "undefined" (`List.headD licenses "undefined"` models
  `attr.licenses[0]` inside a template);
* `JSON.stringify(versions, null, 2)` is modelled structurally for the
  shape `{[name: string]: string[]}` that the engine produces;
* `path.join` / `path.relative` are modelled without normalization as
  concatenation with "/" and stripping that prefix.
-/

namespace Backpack

/-- Filesystem model: a map from absolute path to file content. -/
def FS : Type := String → Option String

/-- Model of `fs.readFileSync(p, 'utf-8')`, as an `Option` (the real call
throws when the file is absent; callers below handle that explicitly). -/
def readFile (fs : FS) (p : String) : Option String := fs p

/-- Model of `fs.existsSync(p)`. -/
def existsSync (fs : FS) (p : String) : Bool :=
  (readFile fs p).isSome

/-- Model of `fs.writeFileSync(p, c)`: the path now maps to `c`, all other
paths are unchanged. -/
def writeFileSync (fs : FS) (p c : String) : FS :=
  fun q => if q = p then some c else fs q

/-- The empty filesystem. -/
def emptyFS : FS := fun _ => none

/-- Model of `String.prototype.toLowerCase()` on the ASCII range (license
identifiers and file names in this domain are ASCII). -/
def toLowerCase (s : String) : String :=
  ⟨s.data.map (fun c => if 'A' ≤ c ∧ c ≤ 'Z' then Char.ofNat (c.toNat + 32) else c)⟩

/-- Model of `String.prototype.endsWith`. -/
def endsWithJS (s tail : String) : Bool := tail.data.isSuffixOf s.data

/-- JavaScript truthiness of an optional string: `undefined` and the empty
string are falsy. -/
def jsTruthy : Option String → Bool
  | none => false
  | some s => s ≠ ""

/-- Model of `path.join(a, b)` (no normalization). -/
def joinPath (a b : String) : String := a ++ "/" ++ b

/-- Model of `path.relative(base, p)` for the paths produced by `joinPath`:
strips the leading `base ++ "/"`. -/
def relativePath (base p : String) : String :=
  if (base ++ "/").data.isPrefixOf p.data then ⟨p.data.drop (base ++ "/").data.length⟩ else p

/-- Model of `Array.prototype.join(sep)`. -/
def joinSep (sep : String) : List String → String
  | [] => ""
  | [x] => x
  | x :: y :: rest => x ++ sep ++ joinSep sep (y :: rest)

/-- One left-to-right pass replacing every (non-overlapping) `"\r\n"` by
`"\n"`, as `String.prototype.replace(/\r\n/g, '\n')` does: at each
position, when the next two characters are CR LF they are replaced by LF
and the scan resumes after them, otherwise the scan advances by one. -/
def replCRLF : List Char → List Char
  | [] => []
  | [c] => [c]
  | c1 :: c2 :: rest =>
    if c1 = '\r' ∧ c2 = '\n' then '\n' :: replCRLF rest
    else c1 :: replCRLF (c2 :: rest)

/-- Model of `s.replace(/\r\n/g, '\n')`. -/
def replaceCRLF (s : String) : String := ⟨replCRLF s.data⟩

/-- A character list is CRLF-clean when every carriage return in it is
immediately followed by a line feed. -/
def loneCRFree : List Char → Bool
  | [] => true
  | [c] => c ≠ '\r'
  | c1 :: c2 :: rest =>
    if c1 = '\r' then c2 = '\n' && loneCRFree rest
    else loneCRFree (c2 :: rest)

/-- String version of `loneCRFree`. -/
def loneCRFreeS (s : String) : Bool := loneCRFree s.data

/-- Hexadecimal digit for JSON `\u00XX` escapes. -/
def hexDigit (n : Nat) : String :=
  if n < 10 then String.singleton (Char.ofNat (48 + n))
  else String.singleton (Char.ofNat (97 + (n - 10)))

/-- JSON escaping of one character, as `JSON.stringify` performs on strings. -/
def jsonEscapeChar (c : Char) : String :=
  if c = '"' then "\\\""
  else if c = '\\' then "\\\\"
  else if c = '\n' then "\\n"
  else if c = '\r' then "\\r"
  else if c = '\t' then "\\t"
  else if c.toNat = 8 then "\\b"
  else if c.toNat = 12 then "\\f"
  else if c.toNat < 32 then "\\u00" ++ hexDigit (c.toNat / 16) ++ hexDigit (c.toNat % 16)
  else String.singleton c

/-- A JSON string literal for `s`. -/
def jsonQuote (s : String) : String :=
  "\"" ++ String.join (s.data.map jsonEscapeChar) ++ "\""

/-- `JSON.stringify` of a string array at nesting depth one with
two-space indentation. -/
def stringifyList (l : List String) : String :=
  match l with
  | [] => "[]"
  | _ => "[\n" ++ joinSep ",\n" (l.map (fun v => "    " ++ jsonQuote v)) ++ "\n  ]"

/-- `JSON.stringify(m, null, 2)` for the insertion-ordered string-keyed map
of version lists the engine builds. -/
def stringifyVersions (m : List (String × List String)) : String :=
  match m with
  | [] => "\x7b\x7d"
  | _ => "\x7b\n" ++
      joinSep ",\n" (m.map (fun kv => "  " ++ jsonQuote kv.1 ++ ": " ++ stringifyList kv.2)) ++
      "\n\x7d"

/-- A dependency package as seen by the engine (`Package` of `bundle.ts`,
restricted to the fields `_attributions.ts` reads). -/
structure Package where
  name : String
  version : String
  path : String
deriving DecidableEq, Repr

/-- Result entry of the `license-checker` probe (`ModuleInfo`): `licenses`
is a string or an array of strings when present. -/
structure ModuleInfo where
  licenses : Option (Sum String (List String)) := none
  licenseFile : Option String := none
  noticeFile : Option String := none
deriving DecidableEq, Repr

/-- Attribution of a specific dependency (interface `Attribution`). -/
structure Attribution where
  packageFqn : String
  packageName : String
  packageVersion : String
  url : String
  licenses : List String
  licenseText : Option String := none
  noticeText : Option String := none
deriving DecidableEq, Repr

/-- The violation kinds emitted by the attributions engine
(`ViolationType` of `violation.ts`, restricted to the kinds this class
produces). -/
inductive ViolationType where
  | MISSING_LICENSES
  | OUTDATED_LICENSES
  | MISSING_VERSIONS
  | OUTDATED_VERSIONS
  | INVALID_LICENSE
  | NO_LICENSE
  | MULTIPLE_LICENSE
deriving DecidableEq, Repr

/-- The fix closures attached to violations: the only fixer the engine
installs is `() => this.flush()`. -/
inductive FixOp where
  | flush
deriving DecidableEq, Repr

/-- A violation (`Violation` of `violation.ts`): kind, message, and an
optional fix action. -/
structure Violation where
  type : ViolationType
  message : String
  fix : Option FixOp := none
deriving DecidableEq, Repr

/-- The state of a constructed `Attributions` object: configuration fields
after constructor normalization plus the derived attributions, canonical
licenses document and canonical versions JSON. -/
structure AttributionsState where
  packageDir : String
  packageName : String
  licensesPath : String
  versionsPath : Option String
  allowedLicenses : List String
  attributions : List Attribution
  licenses : String
  versions : String
deriving DecidableEq, Repr

/-- Constructor inputs (`AttributionsProps`). -/
structure AttributionsProps where
  packageDir : String
  packageName : String
  dependencies : List Package
  dependenciesRoot : String
  licensesPath : String
  allowedLicenses : List String
  exclude : Option String := none
  versionsPath : Option String := none
deriving Repr

/-- The literal block separator `ATTRIBUTION_SEPARATOR`. -/
def ATTRIBUTION_SEPARATOR : String := "\n----------------\n"

/-- Model of `a.localeCompare(b)`. The real comparison is
host-collation-dependent (locale collation on an ICU-enabled host,
code-point comparison on an ICU-less build); the model fixes the
code-point order only to keep the sort executable, and no theorem relies
on which total order this is. -/
def localeCompare (a b : String) : Int :=
  if a < b then -1 else if b < a then 1 else 0

/-- The fully qualified package id `name@version` (`pkg(d)` in `attribute`). -/
def pkgId (d : Package) : String := d.name ++ "@" ++ d.version

/-- The sort comparator of `render`: the `localeCompare` result on
`packageFqn` is non-positive. -/
def fqnLe (a1 a2 : Attribution) : Prop :=
  localeCompare a1.packageFqn a2.packageFqn ≤ 0

instance : DecidableRel fqnLe :=
  fun a1 a2 => inferInstanceAs (Decidable (localeCompare a1.packageFqn a2.packageFqn ≤ 0))

instance : IsTotal Attribution fqnLe :=
  ⟨fun a b => by
    unfold fqnLe localeCompare
    rcases lt_trichotomy a.packageFqn b.packageFqn with h | h | h
    · left; simp [h]
    · right; simp [h, lt_irrefl]
    · right; simp [h]⟩

instance : IsTrans Attribution fqnLe :=
  ⟨fun a b c hab hbc => by
    have key : ∀ x y : String, localeCompare x y ≤ 0 ↔ x ≤ y := by
      intro x y
      unfold localeCompare
      rcases lt_trichotomy x y with h | h | h
      · simp [h, le_of_lt h]
      · simp [h, lt_irrefl]
      · simp [not_lt_of_gt h, h, not_le_of_gt h]
    unfold fqnLe at *
    rw [key] at *
    exact le_trans hab hbc⟩

/-- The sorted copy of the attributions produced in `render`:
`Array.from(attributions.values()).sort((a1, a2) => a1.packageFqn.localeCompare(a2.packageFqn))`,
modelled as a stable comparator sort. -/
def orderedAttributions (attributions : List Attribution) : List Attribution :=
  List.insertionSort fqnLe attributions

/-- The block header pushed for one attribution:
`` `** ${title} - ${attr.url} | ${attr.licenses[0]}` `` where
`title = this.versionsPath ? attr.packageName : attr.packageFqn`.
`attr.licenses[0]` on an empty array is `undefined`, which a template
literal renders as the string "undefined". -/
def headerLine (versionsPath : Option String) (attr : Attribution) : String :=
  let title := if versionsPath.isSome then attr.packageName else attr.packageFqn
  "** " ++ title ++ " - " ++ attr.url ++ " | " ++ attr.licenses.headD "undefined"

/-- The body pushed below the header: `noticeText` if truthy, else
`licenseText` if truthy, else nothing (JavaScript `if (attr.noticeText)`). -/
def bodyLines (attr : Attribution) : List String :=
  if jsTruthy attr.noticeText then [attr.noticeText.getD ""]
  else if jsTruthy attr.licenseText then [attr.licenseText.getD ""]
  else []

/-- All content entries pushed for one attribution: header, optional body,
then the separator. -/
def attrLines (versionsPath : Option String) (attr : Attribution) : List String :=
  headerLine versionsPath attr :: bodyLines attr ++ [ATTRIBUTION_SEPARATOR]

/-- `versions[name] = (versions[name] ?? []).push(version)` on an
insertion-ordered string-keyed object. -/
def upsert (m : List (String × List String)) (k v : String) : List (String × List String) :=
  match m with
  | [] => [(k, [v])]
  | (k', vs) :: rest => if k' = k then (k', vs ++ [v]) :: rest else (k', vs) :: upsert rest k v

/-- The versions object accumulated over the ordered attributions. -/
def collectVersions (ordered : List Attribution) : List (String × List String) :=
  ordered.foldl (fun m a => upsert m a.packageName a.packageVersion) []

/-- The heading pushed when at least one attribution exists. -/
def preambleOf (packageName : String) (attributions : List Attribution) : List String :=
  if attributions.length > 0 then
    ["The " ++ packageName ++ " package includes the following third-party software/licensing:", ""]
  else []

/-- Result of `render`: the licenses document and the versions JSON. -/
structure RenderResult where
  licenses : String
  versions : String
deriving DecidableEq, Repr

/-- `Attributions.render`: sorts the attributions by `packageFqn`, emits
the preamble and the per-attribution blocks, normalizes CRLF in every
content entry and joins the entries with a newline; collects the versions
object on the way and serializes it. -/
def render (packageName : String) (versionsPath : Option String)
    (attributions : List Attribution) : RenderResult :=
  let ordered := orderedAttributions attributions
  let content := preambleOf packageName attributions ++ ordered.flatMap (attrLines versionsPath)
  { licenses := joinSep "\n" (content.map replaceCRLF)
    versions := stringifyVersions (collectVersions ordered) }

/-- Optional read with JavaScript truthiness on the path
(`p ? fs.readFileSync(p, 'utf-8') : undefined`); a present path naming an
absent file throws, modelled as an error. -/
def readOpt (fs : FS) (p : Option String) : Except String (Option String) :=
  match p with
  | none => Except.ok none
  | some f =>
    if f = "" then Except.ok none
    else match readFile fs f with
      | some c => Except.ok (some c)
      | none => Except.error ("ENOENT: no such file or directory, open " ++ f)

/-- The local constant `licenseFile` of the `attribute` loop body: the
probe's license file unless its lowercased name ends in ".md". -/
def licenseFileOf (info : ModuleInfo) : Option String :=
  match info.licenseFile with
  | some f => if endsWithJS (toLowerCase f) ".md" then none else some f
  | none => none

/-- The local constant `licenses` of the `attribute` loop body: the probe
value normalized to a list (a falsy value yields the empty list, a scalar
is wrapped). -/
def licensesOf (info : ModuleInfo) : List String :=
  match info.licenses with
  | none => []
  | some (Sum.inl s) => if s = "" then [] else [s]
  | some (Sum.inr l) => l

/-- The per-dependency construction of an `Attribution` from a probe
entry, as performed in the loop body of `Attributions.attribute`. -/
def buildAttribution (fs : FS) (versionsPath : Option String)
    (dep : Package) (info : ModuleInfo) : Except String Attribution := do
  let noticeText ← readOpt fs info.noticeFile
  let licenseText ← readOpt fs (licenseFileOf info)
  let baseUrl := "https://www.npmjs.com/package/" ++ dep.name
  let url := if versionsPath.isSome then baseUrl else baseUrl ++ "/v/" ++ dep.version
  Except.ok
    { packageFqn := pkgId dep
      packageName := dep.name
      packageVersion := dep.version
      url := url
      licenses := licensesOf info
      licenseText := licenseText
      noticeText := noticeText }

/-- Probe lookups: `fetch cwd packages key` is the `key` entry of the map
returned by `fetchInfos(cwd, packages)`. -/
def Probe : Type := String → List String → String → Option ModuleInfo

/-- Processing of one dependency inside `attribute`: the global probe
result, the per-package fallback probe, and the hard failure when both
miss (`Unable to locate license information`). -/
def attributeOne (fetch : Probe) (fs : FS) (dependenciesRoot : String)
    (packages : List String) (versionsPath : Option String)
    (dep : Package) : Except String Attribution :=
  let key := pkgId dep
  let info? := match fetch dependenciesRoot packages key with
    | some i => some i
    | none => fetch dep.path [pkgId dep] key
  match info? with
  | none => Except.error ("Unable to locate license information for " ++ key ++ " (" ++ dep.path ++ ")")
  | some info => buildAttribution fs versionsPath dep info

/-- The sequential loop of `attribute`: each dependency is attributed in
order, the first thrown error aborting the run. -/
def attributeAll (fetch : Probe) (fs : FS) (dependenciesRoot : String)
    (packages : List String) (versionsPath : Option String) :
    List Package → Except String (List Attribution)
  | [] => Except.ok []
  | dep :: rest => do
    let a ← attributeOne fetch fs dependenciesRoot packages versionsPath dep
    let tail ← attributeAll fetch fs dependenciesRoot packages versionsPath rest
    Except.ok (a :: tail)

/-- `Attributions.attribute`: empty dependency list short-circuits to no
attributions; otherwise every dependency is attributed in order against
the identifier list of the whole (filtered) dependency set. -/
def attribute' (fetch : Probe) (fs : FS) (dependenciesRoot : String)
    (versionsPath : Option String) (dependencies : List Package) :
    Except String (List Attribution) :=
  if dependencies = [] then Except.ok []
  else
    let packages := dependencies.map pkgId
    attributeAll fetch fs dependenciesRoot packages versionsPath dependencies

/-- The constructor's dependency filter:
`props.dependencies.filter(d => !props.exclude || !new RegExp(props.exclude).test(d.name))`
(an empty pattern string is falsy and disables the filter). -/
def filterDeps (exclude : Option String) (test : String → String → Bool)
    (dependencies : List Package) : List Package :=
  dependencies.filter (fun d =>
    match exclude with
    | none => true
    | some p => if p = "" then true else ! test p d.name)

/-- The constructor's versions-path normalization:
`props.versionsPath ? path.join(this.packageDir, props.versionsPath) : undefined`
(an empty string is falsy). -/
def versionsPathOf (props : AttributionsProps) : Option String :=
  match props.versionsPath with
  | some p => if p = "" then none else some (joinPath props.packageDir p)
  | none => none

/-- The `Attributions` constructor: joins the artifact paths, filters the
dependencies, lowercases the allow-list, computes the attributions and
renders the canonical documents. -/
def construct (test : String → String → Bool) (fetch : Probe) (fs : FS)
    (props : AttributionsProps) : Except String AttributionsState := do
  let licensesPath := joinPath props.packageDir props.licensesPath
  let versionsPath := versionsPathOf props
  let dependencies := filterDeps props.exclude test props.dependencies
  let allowedLicenses := props.allowedLicenses.map toLowerCase
  let attributions ← attribute' fetch fs props.dependenciesRoot versionsPath dependencies
  let r := render props.packageName versionsPath attributions
  Except.ok
    { packageDir := props.packageDir
      packageName := props.packageName
      licensesPath := licensesPath
      versionsPath := versionsPath
      allowedLicenses := allowedLicenses
      attributions := attributions
      licenses := r.licenses
      versions := r.versions }

/-- The three license-policy violation groups of `Attributions.validate`,
in source order: invalid (exactly one license, lowercased not in the
lowercased allow-list), none, multiple (message joins the list with a
comma, as array interpolation does). -/
def licenseViolations (allowedLicenses : List String) (attributions : List Attribution) :
    List Violation :=
  (attributions.filter (fun a =>
      a.licenses.length == 1 && ! allowedLicenses.contains (toLowerCase (a.licenses.headD "")))).map
    (fun a => { type := ViolationType.INVALID_LICENSE
                message := "Dependency " ++ a.packageFqn ++ " has an invalid license: " ++ a.licenses.headD ""
                fix := none }) ++
  (attributions.filter (fun a => a.licenses.length == 0)).map
    (fun a => { type := ViolationType.NO_LICENSE
                message := "Dependency " ++ a.packageFqn ++ " has no license"
                fix := none }) ++
  (attributions.filter (fun a => a.licenses.length > 1)).map
    (fun a => { type := ViolationType.MULTIPLE_LICENSE
                message := "Dependency " ++ a.packageFqn ++ " has multiple licenses: " ++ joinSep "," a.licenses
                fix := none })

/-- The local constant `missingLicenses` of `validate`. -/
def missingLicenses (A : AttributionsState) (fs : FS) : Bool :=
  ! existsSync fs A.licensesPath

/-- The local constant `missingVersions` of `validate`
(false when no versions path is configured). -/
def missingVersions (A : AttributionsState) (fs : FS) : Bool :=
  match A.versionsPath with
  | some p => ! existsSync fs p
  | none => false

/-- The local constant `licenses` of `validate`: the on-disk licenses
document when present. -/
def readLicenses (A : AttributionsState) (fs : FS) : Option String :=
  if missingLicenses A fs then none else readFile fs A.licensesPath

/-- The local constant `versions` of `validate`: the on-disk versions
file when configured and present. -/
def readVersions (A : AttributionsState) (fs : FS) : Option String :=
  match A.versionsPath with
  | some p => if missingVersions A fs then none else readFile fs p
  | none => none

/-- The local constant `outdatedLicenses` of `validate`. -/
def outdatedLicenses (A : AttributionsState) (fs : FS) : Bool :=
  match readLicenses A fs with
  | some c => c ≠ A.licenses
  | none => false

/-- The local constant `outdatedVersions` of `validate`. -/
def outdatedVersions (A : AttributionsState) (fs : FS) : Bool :=
  match readVersions A fs with
  | some c => c ≠ A.versions
  | none => false

/-- `Attributions.validate` against a filesystem: the four artifact checks
followed by the license-policy checks. Every artifact violation carries
the `flush` fixer. -/
def validate (A : AttributionsState) (fs : FS) : List Violation :=
  let relLicensesPath := relativePath A.packageDir A.licensesPath
  let relVersionsPath := A.versionsPath.map (relativePath A.packageDir)
  (if missingLicenses A fs then
    [{ type := ViolationType.MISSING_LICENSES
       message := relLicensesPath ++ " is missing", fix := some FixOp.flush }] else []) ++
  (if outdatedLicenses A fs then
    [{ type := ViolationType.OUTDATED_LICENSES
       message := relLicensesPath ++ " is outdated", fix := some FixOp.flush }] else []) ++
  (if missingVersions A fs then
    [{ type := ViolationType.MISSING_VERSIONS
       message := relVersionsPath.getD "undefined" ++ " is missing", fix := some FixOp.flush }] else []) ++
  (if outdatedVersions A fs then
    [{ type := ViolationType.OUTDATED_VERSIONS
       message := relVersionsPath.getD "undefined" ++ " is outdated", fix := some FixOp.flush }] else []) ++
  licenseViolations A.allowedLicenses A.attributions

/-- `Attributions.flush`: writes the canonical licenses document, and the
canonical versions JSON when a versions path is configured. -/
def flush (A : AttributionsState) (fs : FS) : FS :=
  let fs1 := writeFileSync fs A.licensesPath A.licenses
  match A.versionsPath with
  | some p => writeFileSync fs1 p A.versions
  | none => fs1

/-- Interpretation of a violation's fix closure: the only closure the
engine installs is `() => this.flush()`. -/
def applyFix (A : AttributionsState) : FixOp → FS → FS
  | FixOp.flush => flush A

/-- Invocation of one violation fixer when present (a violation without
a fixer is left alone). -/
def fixStep (A : AttributionsState) (acc : FS) (v : Violation) : FS :=
  match v.fix with
  | some op => applyFix A op acc
  | none => acc

/-- Modelled from the spec: the fix-capable validation pass of the
validation orchestrator (`ViolationsReport` and `Bundle.validate` with
`fix: true`, whose source is not part of this tree): each fixable
violation has its fixer invoked exactly once, in the order the violations
were produced. Returns the produced report and the resulting filesystem. -/
def validateAndFix (A : AttributionsState) (fs : FS) : List Violation × FS :=
  let vs := validate A fs
  (vs, vs.foldl (fixStep A) fs)

/-- Stated from the claim wording (for comparison with the code): the
license violations a single attribution should produce, decided by the
length of its licenses list — invalid-license for exactly one entry whose
lowercased value is not in the lowercased allow-list, no-license for an
empty list, multiple-license (with a comma-joined message) for two or
more entries, and nothing for exactly one allowed license. -/
def claimedLicenseViolations (rawAllowed : List String) (a : Attribution) : List Violation :=
  if a.licenses.length = 1 ∧
      ¬ (rawAllowed.map toLowerCase).contains (toLowerCase (a.licenses.headD "")) then
    [{ type := ViolationType.INVALID_LICENSE
       message := "Dependency " ++ a.packageFqn ++ " has an invalid license: " ++ a.licenses.headD ""
       fix := none }]
  else if a.licenses.length = 0 then
    [{ type := ViolationType.NO_LICENSE
       message := "Dependency " ++ a.packageFqn ++ " has no license"
       fix := none }]
  else if a.licenses.length > 1 then
    [{ type := ViolationType.MULTIPLE_LICENSE
       message := "Dependency " ++ a.packageFqn ++ " has multiple licenses: " ++ joinSep "," a.licenses
       fix := none }]
  else []

/-- All the text an attribution contributes to the document is CRLF-clean
(no lone carriage returns). -/
def attrCRFree (a : Attribution) : Bool :=
  loneCRFreeS a.packageFqn && loneCRFreeS a.packageName && loneCRFreeS a.url &&
  a.licenses.all loneCRFreeS && Option.all loneCRFreeS a.noticeText &&
  Option.all loneCRFreeS a.licenseText

/-- A filesystem on which both canonical artifacts of a state are
up to date. -/
def Flushed (A : AttributionsState) (fs : FS) : Prop :=
  readFile fs A.licensesPath = some A.licenses ∧
  ∀ p, A.versionsPath = some p → readFile fs p = some A.versions

/-- Concrete dependency used in counterexample constructions. -/
def cexPkg : Package :=
  { name := "dep1", version := "1.0.0", path := "/pkg/node_modules/dep1" }

/-- Concrete probe for the counterexample: the package is known globally
but carries no license information at all. -/
def cexProbe : Probe :=
  fun _ _ key => if key = "dep1@1.0.0" then some {} else none

/-- Concrete constructor inputs for the counterexample. -/
def cexProps : AttributionsProps :=
  { packageDir := "/pkg"
    packageName := "consumer"
    dependencies := [cexPkg]
    dependenciesRoot := "/pkg/node_modules"
    licensesPath := "THIRD_PARTY_LICENSES"
    allowedLicenses := ["Apache-2.0"] }

/-- Concrete filesystem holding an empty notice file and a license file. -/
def cexFS : FS :=
  writeFileSync (writeFileSync emptyFS "/pkg/node_modules/dep2/NOTICE" "")
    "/pkg/node_modules/dep2/LICENSE" "LICENSE TEXT"

/-- Concrete probe entry with an empty notice file next to a license file. -/
def cexInfo : ModuleInfo :=
  { licenses := some (Sum.inl "MIT")
    licenseFile := some "/pkg/node_modules/dep2/LICENSE"
    noticeFile := some "/pkg/node_modules/dep2/NOTICE" }

/-- Concrete dependency owning `cexInfo`. -/
def cexPkg2 : Package :=
  { name := "dep2", version := "1.0.0", path := "/pkg/node_modules/dep2" }

/-- The counterexample configuration without dependencies. -/
def cexEmptyProps : AttributionsProps :=
  { cexProps with dependencies := [] }

/-- The state the constructor produces from `cexEmptyProps`. -/
def cexEmptyState : AttributionsState :=
  { packageDir := "/pkg", packageName := "consumer"
    licensesPath := "/pkg/THIRD_PARTY_LICENSES", versionsPath := none
    allowedLicenses := ["apache-2.0"], attributions := []
    licenses := "", versions := "\x7b\x7d" }

/-! Helper lemmas about the filesystem model. -/

theorem readFile_writeFileSync_self (fs : FS) (p c : String) :
    readFile (writeFileSync fs p c) p = some c := by
  simp [readFile, writeFileSync]

theorem readFile_writeFileSync_ne (fs : FS) {p q : String} (c : String) (h : q ≠ p) :
    readFile (writeFileSync fs p c) q = readFile fs q := by
  simp [readFile, writeFileSync, h]

/-! Helper lemmas about CRLF normalization. -/

theorem replCRLF_of_noCR : ∀ (l : List Char), '\r' ∉ l → replCRLF l = l := by
  intro l
  induction l using replCRLF.induct with
  | case1 => intro _; simp [replCRLF]
  | case2 c => intro _; simp [replCRLF]
  | case3 c1 c2 rest h ih =>
    intro hmem
    exact absurd (show ('\r' : Char) ∈ c1 :: c2 :: rest by simp [h.1]) hmem
  | case4 c1 c2 rest h ih =>
    intro hmem
    have h2 : '\r' ∉ c2 :: rest := fun m => hmem (List.mem_cons_of_mem _ m)
    simp only [replCRLF, h, if_false, ite_false, if_neg h]
    rw [ih h2]

theorem noCR_replCRLF_of_loneCRFree : ∀ (l : List Char),
    loneCRFree l = true → '\r' ∉ replCRLF l := by
  intro l
  induction l using replCRLF.induct with
  | case1 => intro _ hm; simp [replCRLF] at hm
  | case2 c =>
    intro hl hm
    have hc : c ≠ '\r' := by simpa [loneCRFree] using hl
    simp [replCRLF] at hm
    exact hc hm.symm
  | case3 c1 c2 rest h ih =>
    intro hl hm
    have hrest : loneCRFree rest = true := by
      rw [h.1] at hl
      simpa [loneCRFree, h.2] using hl
    rw [show replCRLF (c1 :: c2 :: rest) = '\n' :: replCRLF rest by
      simp [replCRLF, h.1, h.2]] at hm
    rcases List.mem_cons.mp hm with hm | hm
    · exact absurd hm (by decide)
    · exact ih hrest hm
  | case4 c1 c2 rest h ih =>
    intro hl hm
    by_cases hc1 : c1 = '\r'
    · exfalso
      have hc2 : c2 ≠ '\n' := fun e => h ⟨hc1, e⟩
      rw [hc1] at hl
      simp [loneCRFree, hc2] at hl
    · rw [show replCRLF (c1 :: c2 :: rest) = c1 :: replCRLF (c2 :: rest) by
        simp [replCRLF, h]] at hm
      rcases List.mem_cons.mp hm with hm | hm
      · exact hc1 hm.symm
      · have hl2 : loneCRFree (c2 :: rest) = true := by
          simpa [loneCRFree, hc1] using hl
        exact ih hl2 hm

theorem loneCRFree_append : ∀ (l1 l2 : List Char),
    loneCRFree l1 = true → loneCRFree l2 = true → loneCRFree (l1 ++ l2) = true := by
  intro l1
  induction l1 using loneCRFree.induct with
  | case1 => intro l2 _ h2; simpa using h2
  | case2 c =>
    intro l2 h1 h2
    have hc : c ≠ '\r' := by simpa [loneCRFree] using h1
    cases l2 with
    | nil => simpa [loneCRFree] using hc
    | cons d t =>
      show loneCRFree (c :: d :: t) = true
      simpa [loneCRFree, hc] using h2
  | case3 c2 rest ih =>
    intro l2 h1 h2
    have h1' : c2 = '\n' ∧ loneCRFree rest = true := by
      simpa [loneCRFree] using h1
    show loneCRFree ('\r' :: c2 :: (rest ++ l2)) = true
    simp [loneCRFree, h1'.1, ih l2 h1'.2 h2]
  | case4 c1 c2 rest h ih =>
    intro l2 h1 h2
    have h1' : loneCRFree (c2 :: rest) = true := by
      simpa [loneCRFree, h] using h1
    show loneCRFree (c1 :: c2 :: (rest ++ l2)) = true
    have := ih l2 h1' h2
    simpa [loneCRFree, h] using this

/-! Helper lemmas about joining and ordering. -/

theorem noCR_joinSep : ∀ (l : List String), (∀ s ∈ l, '\r' ∉ s.data) →
    '\r' ∉ (joinSep "\n" l).data := by
  intro l
  induction l with
  | nil => intro _; simp [joinSep]
  | cons x t ih =>
    intro h
    cases t with
    | nil =>
      simpa [joinSep] using h x (by simp)
    | cons y r =>
      show '\r' ∉ (x ++ "\n" ++ joinSep "\n" (y :: r)).data
      simp only [String.data_append, List.mem_append]
      push_neg
      refine ⟨⟨h x (by simp), by decide⟩, ?_⟩
      exact ih (fun s hs => h s (List.mem_cons_of_mem _ hs))

theorem orderedAttributions_perm (attrs : List Attribution) :
    (orderedAttributions attrs).Perm attrs :=
  List.perm_insertionSort fqnLe attrs

theorem replaceCRLF_of_noCR (s : String) (h : '\r' ∉ s.data) : replaceCRLF s = s := by
  unfold replaceCRLF
  rw [replCRLF_of_noCR s.data h]

theorem noCR_header (packageName : String) (hcr : '\r' ∉ packageName.data) :
    '\r' ∉ ("The " ++ packageName ++
      " package includes the following third-party software/licensing:").data := by
  simp only [String.data_append, List.mem_append]
  push_neg
  exact ⟨⟨by decide, hcr⟩, by decide⟩

theorem filter3_perm {α β : Type} (p1 p2 p3 : α → Bool) (g1 g2 g3 : α → β)
    (claimed : α → List β)
    (hclaimed : ∀ a, claimed a =
      if p1 a then [g1 a] else if p2 a then [g2 a] else if p3 a then [g3 a] else [])
    (h12 : ∀ a, p1 a = true → p2 a = false)
    (h13 : ∀ a, p1 a = true → p3 a = false)
    (h23 : ∀ a, p2 a = true → p3 a = false) :
    ∀ l : List α,
      ((l.filter p1).map g1 ++ (l.filter p2).map g2 ++ (l.filter p3).map g3).Perm
        (l.flatMap claimed) := by
  intro l
  induction l with
  | nil => simp
  | cons a t ih =>
    rw [List.flatMap_cons, hclaimed a]
    by_cases h1 : p1 a = true
    · simp [List.filter_cons, h1, h12 a h1, h13 a h1]
      simpa using ih
    · have h1f : p1 a = false := by
        cases hp : p1 a
        · rfl
        · exact absurd hp h1
      by_cases h2 : p2 a = true
      · simp [List.filter_cons, h1f, h2, h23 a h2]
        refine List.Perm.trans List.perm_middle (List.Perm.cons _ ?_)
        simpa using ih
      · have h2f : p2 a = false := by
          cases hp : p2 a
          · rfl
          · exact absurd hp h2
        by_cases h3 : p3 a = true
        · simp [List.filter_cons, h1f, h2f, h3]
          rw [← List.append_assoc]
          exact List.Perm.trans List.perm_middle (List.Perm.cons _ ih)
        · have h3f : p3 a = false := by
            cases hp : p3 a
            · rfl
            · exact absurd hp h3
          simp [List.filter_cons, h1f, h2f, h3f]
          simpa using ih

theorem licenseViolations_perm_flatMap (rawAllowed : List String) (attrs : List Attribution) :
    (licenseViolations (rawAllowed.map toLowerCase) attrs).Perm
      (attrs.flatMap (claimedLicenseViolations rawAllowed)) := by
  unfold licenseViolations
  apply filter3_perm
  · intro a
    unfold claimedLicenseViolations
    rcases hn : a.licenses.length with _ | _ | n
    · simp [hn]
    · by_cases hc : (rawAllowed.map toLowerCase).contains (toLowerCase (a.licenses.headD "")) = true
      · simp [hn, hc]
      · simp [hn, hc]
    · simp [hn]
  · intro a h
    simp only [Bool.and_eq_true, beq_iff_eq] at h
    obtain ⟨h1, -⟩ := h
    simp only [Bool.eq_false_iff, ne_eq, beq_iff_eq]
    omega
  · intro a h
    simp only [Bool.and_eq_true, beq_iff_eq] at h
    obtain ⟨h1, -⟩ := h
    simp only [Bool.eq_false_iff, ne_eq, decide_eq_true_eq]
    omega
  · intro a h
    simp only [beq_iff_eq] at h
    simp only [Bool.eq_false_iff, ne_eq, decide_eq_true_eq]
    omega

theorem mem_ite_singleton {α : Type} {c : Prop} [Decidable c] {v x : α} :
    x ∈ (if c then [v] else ([] : List α)) ↔ c ∧ x = v := by
  split_ifs with h <;> simp [h]

theorem licenseViolations_types (al : List String) (ats : List Attribution) :
    ∀ v ∈ licenseViolations al ats,
      (v.type = ViolationType.INVALID_LICENSE ∨ v.type = ViolationType.NO_LICENSE ∨
        v.type = ViolationType.MULTIPLE_LICENSE) ∧ v.fix = none := by
  intro v hv
  unfold licenseViolations at hv
  simp only [List.mem_append, List.mem_map] at hv
  rcases hv with (⟨a, -, rfl⟩ | ⟨a, -, rfl⟩) | ⟨a, -, rfl⟩ <;> simp

theorem missingLicenses_iff (A : AttributionsState) (fs : FS) :
    missingLicenses A fs = true ↔ readFile fs A.licensesPath = none := by
  unfold missingLicenses existsSync
  cases h : readFile fs A.licensesPath <;> simp [h]

theorem outdatedLicenses_iff (A : AttributionsState) (fs : FS) :
    outdatedLicenses A fs = true ↔
      ∃ c, readFile fs A.licensesPath = some c ∧ c ≠ A.licenses := by
  unfold outdatedLicenses readLicenses missingLicenses existsSync
  cases h : readFile fs A.licensesPath <;> simp [h]

theorem missingVersions_iff (A : AttributionsState) (fs : FS) :
    missingVersions A fs = true ↔
      ∃ p, A.versionsPath = some p ∧ readFile fs p = none := by
  unfold missingVersions existsSync
  cases hv : A.versionsPath with
  | none => simp
  | some p => cases h : readFile fs p <;> simp [h]

theorem outdatedVersions_iff (A : AttributionsState) (fs : FS) :
    outdatedVersions A fs = true ↔
      ∃ p c, A.versionsPath = some p ∧ readFile fs p = some c ∧ c ≠ A.versions := by
  unfold outdatedVersions readVersions missingVersions existsSync
  cases hv : A.versionsPath with
  | none => simp
  | some p => cases h : readFile fs p <;> simp [h]

theorem mem_validate_missingLicenses (A : AttributionsState) (fs : FS) :
    (∃ v ∈ validate A fs, v.type = ViolationType.MISSING_LICENSES) ↔
      missingLicenses A fs = true := by
  constructor
  · rintro ⟨v, hv, ht⟩
    simp only [validate, List.mem_append, mem_ite_singleton] at hv
    rcases hv with (((⟨hb, rfl⟩ | ⟨hb, rfl⟩) | ⟨hb, rfl⟩) | ⟨hb, rfl⟩) | h5
    · exact hb
    · simp at ht
    · simp at ht
    · simp at ht
    · rcases (licenseViolations_types _ _ v h5).1 with e | e | e <;> rw [ht] at e <;> simp at e
  · intro hb
    refine ⟨{ type := ViolationType.MISSING_LICENSES
              message := relativePath A.packageDir A.licensesPath ++ " is missing"
              fix := some FixOp.flush }, ?_, rfl⟩
    simp [validate, List.mem_append, mem_ite_singleton, hb]

theorem mem_validate_outdatedLicenses (A : AttributionsState) (fs : FS) :
    (∃ v ∈ validate A fs, v.type = ViolationType.OUTDATED_LICENSES) ↔
      outdatedLicenses A fs = true := by
  constructor
  · rintro ⟨v, hv, ht⟩
    simp only [validate, List.mem_append, mem_ite_singleton] at hv
    rcases hv with (((⟨hb, rfl⟩ | ⟨hb, rfl⟩) | ⟨hb, rfl⟩) | ⟨hb, rfl⟩) | h5
    · simp at ht
    · exact hb
    · simp at ht
    · simp at ht
    · rcases (licenseViolations_types _ _ v h5).1 with e | e | e <;> rw [ht] at e <;> simp at e
  · intro hb
    refine ⟨{ type := ViolationType.OUTDATED_LICENSES
              message := relativePath A.packageDir A.licensesPath ++ " is outdated"
              fix := some FixOp.flush }, ?_, rfl⟩
    simp [validate, List.mem_append, mem_ite_singleton, hb]

theorem mem_validate_missingVersions (A : AttributionsState) (fs : FS) :
    (∃ v ∈ validate A fs, v.type = ViolationType.MISSING_VERSIONS) ↔
      missingVersions A fs = true := by
  constructor
  · rintro ⟨v, hv, ht⟩
    simp only [validate, List.mem_append, mem_ite_singleton] at hv
    rcases hv with (((⟨hb, rfl⟩ | ⟨hb, rfl⟩) | ⟨hb, rfl⟩) | ⟨hb, rfl⟩) | h5
    · simp at ht
    · simp at ht
    · exact hb
    · simp at ht
    · rcases (licenseViolations_types _ _ v h5).1 with e | e | e <;> rw [ht] at e <;> simp at e
  · intro hb
    refine ⟨{ type := ViolationType.MISSING_VERSIONS
              message := (A.versionsPath.map (relativePath A.packageDir)).getD "undefined" ++ " is missing"
              fix := some FixOp.flush }, ?_, rfl⟩
    simp [validate, List.mem_append, mem_ite_singleton, hb]

theorem mem_validate_outdatedVersions (A : AttributionsState) (fs : FS) :
    (∃ v ∈ validate A fs, v.type = ViolationType.OUTDATED_VERSIONS) ↔
      outdatedVersions A fs = true := by
  constructor
  · rintro ⟨v, hv, ht⟩
    simp only [validate, List.mem_append, mem_ite_singleton] at hv
    rcases hv with (((⟨hb, rfl⟩ | ⟨hb, rfl⟩) | ⟨hb, rfl⟩) | ⟨hb, rfl⟩) | h5
    · simp at ht
    · simp at ht
    · simp at ht
    · exact hb
    · rcases (licenseViolations_types _ _ v h5).1 with e | e | e <;> rw [ht] at e <;> simp at e
  · intro hb
    refine ⟨{ type := ViolationType.OUTDATED_VERSIONS
              message := (A.versionsPath.map (relativePath A.packageDir)).getD "undefined" ++ " is outdated"
              fix := some FixOp.flush }, ?_, rfl⟩
    simp [validate, List.mem_append, mem_ite_singleton, hb]

theorem validate_fix_types (A : AttributionsState) (fs : FS) :
    ∀ v ∈ validate A fs,
      (v.type = ViolationType.MISSING_LICENSES ∨ v.type = ViolationType.OUTDATED_LICENSES ∨
        v.type = ViolationType.MISSING_VERSIONS ∨ v.type = ViolationType.OUTDATED_VERSIONS) →
      v.fix = some FixOp.flush := by
  intro v hv ht
  simp only [validate, List.mem_append, mem_ite_singleton] at hv
  rcases hv with (((⟨hb, rfl⟩ | ⟨hb, rfl⟩) | ⟨hb, rfl⟩) | ⟨hb, rfl⟩) | h5
  · rfl
  · rfl
  · rfl
  · rfl
  · rcases (licenseViolations_types _ _ v h5).1 with e | e | e <;>
      rcases ht with t | t | t | t <;> rw [t] at e <;> simp at e

theorem flush_flushed (A : AttributionsState) (fs : FS)
    (hpath : ∀ p, A.versionsPath = some p → p ≠ A.licensesPath) :
    Flushed A (flush A fs) := by
  unfold flush Flushed
  cases hv : A.versionsPath with
  | none =>
    refine ⟨readFile_writeFileSync_self fs _ _, ?_⟩
    intro p hp
    simp at hp
  | some p =>
    constructor
    · rw [readFile_writeFileSync_ne _ _ (fun e => hpath p hv e.symm)]
      exact readFile_writeFileSync_self fs _ _
    · intro q hq
      injection hq with hq
      subst hq
      exact readFile_writeFileSync_self _ _ _

theorem step_preserve (A : AttributionsState)
    (hpath : ∀ p, A.versionsPath = some p → p ≠ A.licensesPath) :
    ∀ (vs : List Violation) (fs : FS), Flushed A fs →
      Flushed A (vs.foldl (fixStep A) fs) := by
  intro vs
  induction vs with
  | nil => intro fs h; exact h
  | cons v t ih =>
    intro fs h
    show Flushed A (t.foldl (fixStep A) (fixStep A fs v))
    cases hf : v.fix with
    | none =>
      have he : fixStep A fs v = fs := by simp [fixStep, hf]
      rw [he]
      exact ih fs h
    | some op =>
      cases op
      have : fixStep A fs v = flush A fs := by simp [fixStep, hf, applyFix]
      rw [this]
      exact ih _ (flush_flushed A fs hpath)

theorem fixable_flushed (A : AttributionsState)
    (hpath : ∀ p, A.versionsPath = some p → p ≠ A.licensesPath) :
    ∀ (vs : List Violation) (fs : FS), (∃ v ∈ vs, v.fix = some FixOp.flush) →
      Flushed A (vs.foldl (fixStep A) fs) := by
  intro vs
  induction vs with
  | nil => intro fs h; simp at h
  | cons v t ih =>
    intro fs h
    show Flushed A (t.foldl (fixStep A) (fixStep A fs v))
    cases hf : v.fix with
    | some op =>
      cases op
      have : fixStep A fs v = flush A fs := by simp [fixStep, hf, applyFix]
      rw [this]
      exact step_preserve A hpath t _ (flush_flushed A fs hpath)
    | none =>
      obtain ⟨w, hw, hwf⟩ := h
      rcases List.mem_cons.mp hw with rfl | hw
      · rw [hf] at hwf
        cases hwf
      · exact ih (fixStep A fs v) ⟨w, hw, hwf⟩

theorem validate_of_flushed (A : AttributionsState) (fs : FS) (h : Flushed A fs) :
    validate A fs = licenseViolations A.allowedLicenses A.attributions := by
  obtain ⟨h1, h2⟩ := h
  have hm : missingLicenses A fs = false := by
    simp [missingLicenses, existsSync, h1]
  have ho : outdatedLicenses A fs = false := by
    simp [outdatedLicenses, readLicenses, hm, h1]
  have hmv : missingVersions A fs = false := by
    unfold missingVersions
    cases hv : A.versionsPath with
    | none => rfl
    | some p => simp [existsSync, h2 p hv]
  have hov : outdatedVersions A fs = false := by
    unfold outdatedVersions readVersions
    cases hv : A.versionsPath with
    | none => rfl
    | some p => simp [hmv, h2 p hv]
  unfold validate
  rw [hm, ho, hmv, hov]
  simp

theorem buildAttribution_ok_parts (fs : FS) (vp : Option String) (dep : Package)
    (info : ModuleInfo) (a : Attribution)
    (h : buildAttribution fs vp dep info = Except.ok a) :
    ∃ nt lt, readOpt fs info.noticeFile = Except.ok nt ∧
      readOpt fs (licenseFileOf info) = Except.ok lt ∧
      a = { packageFqn := pkgId dep
            packageName := dep.name
            packageVersion := dep.version
            url := if vp.isSome then "https://www.npmjs.com/package/" ++ dep.name
                   else "https://www.npmjs.com/package/" ++ dep.name ++ "/v/" ++ dep.version
            licenses := licensesOf info
            licenseText := lt
            noticeText := nt } := by
  unfold buildAttribution at h
  cases hnt : readOpt fs info.noticeFile with
  | error e => rw [hnt] at h; simp [Bind.bind, Except.bind] at h
  | ok nt =>
    rw [hnt] at h
    cases hlt : readOpt fs (licenseFileOf info) with
    | error e => rw [hlt] at h; simp [Bind.bind, Except.bind] at h
    | ok lt =>
      rw [hlt] at h
      simp only [Bind.bind, Except.bind] at h
      injection h with h
      exact ⟨nt, lt, rfl, rfl, h.symm⟩

theorem attributeAll_mem_error (fetch : Probe) (fs : FS) (root : String)
    (packages : List String) (vp : Option String) :
    ∀ (deps : List Package) (dep : Package), dep ∈ deps →
      (∃ e, attributeOne fetch fs root packages vp dep = Except.error e) →
      ∃ e, attributeAll fetch fs root packages vp deps = Except.error e := by
  intro deps
  induction deps with
  | nil => intro dep h; simp at h
  | cons d t ih =>
    intro dep hmem herr
    rcases List.mem_cons.mp hmem with rfl | hmem
    · obtain ⟨e, he⟩ := herr
      exact ⟨e, by unfold attributeAll; rw [he]; rfl⟩
    · cases hone : attributeOne fetch fs root packages vp d with
      | error e => exact ⟨e, by unfold attributeAll; rw [hone]; rfl⟩
      | ok a =>
        obtain ⟨e, he⟩ := ih dep hmem herr
        exact ⟨e, by unfold attributeAll; rw [hone, he]; rfl⟩

theorem attributeOne_name (fetch : Probe) (fs : FS) (root : String)
    (packages : List String) (vp : Option String) (dep : Package) (a : Attribution)
    (h : attributeOne fetch fs root packages vp dep = Except.ok a) :
    a.packageName = dep.name := by
  unfold attributeOne at h
  cases hg : fetch root packages (pkgId dep) with
  | some i =>
    simp only [hg] at h
    obtain ⟨nt, lt, -, -, rfl⟩ := buildAttribution_ok_parts fs vp dep i a h
    rfl
  | none =>
    simp only [hg] at h
    cases hl : fetch dep.path [pkgId dep] (pkgId dep) with
    | none => simp only [hl] at h; cases h
    | some i =>
      simp only [hl] at h
      obtain ⟨nt, lt, -, -, rfl⟩ := buildAttribution_ok_parts fs vp dep i a h
      rfl

theorem attributeAll_names (fetch : Probe) (fs : FS) (root : String)
    (packages : List String) (vp : Option String) :
    ∀ (deps : List Package) (attrs : List Attribution),
      attributeAll fetch fs root packages vp deps = Except.ok attrs →
      attrs.map (fun a => a.packageName) = deps.map (fun d => d.name) := by
  intro deps
  induction deps with
  | nil =>
    intro attrs h
    unfold attributeAll at h
    injection h with h
    rw [← h]
    rfl
  | cons d t ih =>
    intro attrs h
    unfold attributeAll at h
    cases hone : attributeOne fetch fs root packages vp d with
    | error e => rw [hone] at h; simp [Bind.bind, Except.bind] at h
    | ok a =>
      rw [hone] at h
      cases hrest : attributeAll fetch fs root packages vp t with
      | error e => rw [hrest] at h; simp [Bind.bind, Except.bind] at h
      | ok tl =>
        rw [hrest] at h
        simp only [Bind.bind, Except.bind] at h
        injection h with h
        rw [← h, List.map_cons, List.map_cons,
          attributeOne_name fetch fs root packages vp d a hone, ih tl hrest]

theorem attribute'_names (fetch : Probe) (fs : FS) (root : String)
    (vp : Option String) (deps : List Package) (attrs : List Attribution)
    (h : attribute' fetch fs root vp deps = Except.ok attrs) :
    attrs.map (fun a => a.packageName) = deps.map (fun d => d.name) := by
  unfold attribute' at h
  by_cases hd : deps = []
  · rw [if_pos hd] at h
    injection h with h
    rw [← h, hd]
    rfl
  · rw [if_neg hd] at h
    exact attributeAll_names fetch fs root (deps.map pkgId) vp deps attrs h

theorem upsert_keys (k v j : String) :
    ∀ m : List (String × List String),
      j ∈ (upsert m k v).map Prod.fst → j = k ∨ j ∈ m.map Prod.fst := by
  intro m
  induction m with
  | nil =>
    intro h
    simp [upsert] at h
    exact Or.inl h
  | cons e t ih =>
    rcases e with ⟨k', vs⟩
    intro h
    by_cases he : k' = k
    · rw [show upsert ((k', vs) :: t) k v = (k', vs ++ [v]) :: t by simp [upsert, he]] at h
      simp only [List.map_cons] at h ⊢
      rcases List.mem_cons.mp h with h | h
      · exact Or.inl (h.trans he)
      · exact Or.inr (List.mem_cons_of_mem _ h)
    · rw [show upsert ((k', vs) :: t) k v = (k', vs) :: upsert t k v by simp [upsert, he]] at h
      simp only [List.map_cons] at h ⊢
      rcases List.mem_cons.mp h with h | h
      · exact Or.inr (List.mem_cons.mpr (Or.inl h))
      · rcases ih h with h | h
        · exact Or.inl h
        · exact Or.inr (List.mem_cons.mpr (Or.inr h))

theorem foldl_upsert_keys :
    ∀ (l : List Attribution) (m : List (String × List String)) (j : String),
      j ∈ ((l.foldl (fun m a => upsert m a.packageName a.packageVersion) m).map Prod.fst) →
      j ∈ m.map Prod.fst ∨ j ∈ l.map (fun a => a.packageName) := by
  intro l
  induction l with
  | nil => intro m j h; exact Or.inl h
  | cons a t ih =>
    intro m j h
    rcases ih (upsert m a.packageName a.packageVersion) j h with h | h
    · rcases upsert_keys a.packageName a.packageVersion j m h with h | h
      · subst h
        exact Or.inr (List.mem_cons_self _ _)
      · exact Or.inl h
    · exact Or.inr (List.mem_cons_of_mem _ h)

theorem collectVersions_keys (l : List Attribution) (j : String)
    (h : j ∈ (collectVersions l).map Prod.fst) :
    j ∈ l.map (fun a => a.packageName) := by
  unfold collectVersions at h
  rcases foldl_upsert_keys l [] j h with h | h
  · simp at h
  · exact h

theorem construct_ok_parts (test : String → String → Bool) (fetch : Probe) (fs : FS)
    (props : AttributionsProps) (A : AttributionsState)
    (h : construct test fetch fs props = Except.ok A) :
    ∃ attrs, attribute' fetch fs props.dependenciesRoot (versionsPathOf props)
        (filterDeps props.exclude test props.dependencies) = Except.ok attrs ∧
      A.attributions = attrs := by
  unfold construct at h
  simp only [Bind.bind] at h
  cases hat : attribute' fetch fs props.dependenciesRoot (versionsPathOf props)
      (filterDeps props.exclude test props.dependencies) with
  | error e => rw [hat] at h; simp [Except.bind] at h
  | ok attrs =>
    rw [hat] at h
    simp only [Except.bind] at h
    injection h with h
    exact ⟨attrs, rfl, by rw [← h]⟩

theorem filterDeps_excluded (pat : String) (hpat : pat ≠ "")
    (test : String → String → Bool) (deps : List Package) (dep : Package)
    (ht : test pat dep.name = true) :
    ∀ d ∈ filterDeps (some pat) test deps, d.name ≠ dep.name := by
  intro d hd he
  unfold filterDeps at hd
  rw [List.mem_filter] at hd
  have hp := hd.2
  simp [hpat] at hp
  rw [he, ht] at hp
  cases hp

theorem filterDeps_kept (pat : String) (test : String → String → Bool)
    (deps : List Package) (d : Package) (hd : d ∈ deps)
    (hf : test pat d.name = false) : d ∈ filterDeps (some pat) test deps := by
  unfold filterDeps
  rw [List.mem_filter]
  refine ⟨hd, ?_⟩
  by_cases hpat : pat = ""
  · simp [hpat]
  · simp [hpat, hf]

theorem loneCRFreeS_append (s t : String) (hs : loneCRFreeS s = true)
    (ht : loneCRFreeS t = true) : loneCRFreeS (s ++ t) = true := by
  unfold loneCRFreeS at *
  rw [String.data_append]
  exact loneCRFree_append _ _ hs ht

theorem headerLine_crFree (vp : Option String) (a : Attribution)
    (h : attrCRFree a = true) : loneCRFreeS (headerLine vp a) = true := by
  unfold attrCRFree at h
  simp only [Bool.and_eq_true] at h
  obtain ⟨⟨⟨⟨⟨hfqn, hname⟩, hurl⟩, hlic⟩, hnt⟩, hlt⟩ := h
  unfold headerLine
  have htitle : loneCRFreeS (if vp.isSome then a.packageName else a.packageFqn) = true := by
    by_cases hv : vp.isSome = true
    · rw [if_pos hv]; exact hname
    · rw [if_neg hv]; exact hfqn
  have hhead : loneCRFreeS (a.licenses.headD "undefined") = true := by
    cases hL : a.licenses with
    | nil => decide
    | cons x xs =>
      rw [hL] at hlic
      simp only [List.all_cons, Bool.and_eq_true] at hlic
      exact hlic.1
  refine loneCRFreeS_append _ _ ?_ hhead
  refine loneCRFreeS_append _ _ ?_ (by decide)
  refine loneCRFreeS_append _ _ ?_ hurl
  refine loneCRFreeS_append _ _ ?_ (by decide)
  exact loneCRFreeS_append _ _ (by decide) htitle

theorem bodyLines_crFree (a : Attribution) (h : attrCRFree a = true) :
    ∀ s ∈ bodyLines a, loneCRFreeS s = true := by
  intro s hs
  unfold attrCRFree at h
  simp only [Bool.and_eq_true] at h
  obtain ⟨⟨-, hnt⟩, hlt⟩ := h
  unfold bodyLines at hs
  by_cases h1 : jsTruthy a.noticeText = true
  · rw [if_pos h1] at hs
    rcases List.mem_singleton.mp hs with rfl
    cases hnote : a.noticeText with
    | none => rw [hnote] at h1; simp [jsTruthy] at h1
    | some n =>
      rw [hnote] at hnt
      simpa [Option.all] using hnt
  · rw [if_neg h1] at hs
    by_cases h2 : jsTruthy a.licenseText = true
    · rw [if_pos h2] at hs
      rcases List.mem_singleton.mp hs with rfl
      cases hlic : a.licenseText with
      | none => rw [hlic] at h2; simp [jsTruthy] at h2
      | some l =>
        rw [hlic] at hlt
        simpa [Option.all] using hlt
    · rw [if_neg h2] at hs
      cases hs

theorem attrLines_crFree (vp : Option String) (a : Attribution)
    (h : attrCRFree a = true) : ∀ s ∈ attrLines vp a, loneCRFreeS s = true := by
  intro s hs
  unfold attrLines at hs
  rcases List.mem_cons.mp hs with rfl | hs
  · exact headerLine_crFree vp a h
  · rcases List.mem_append.mp hs with hs | hs
    · exact bodyLines_crFree a h s hs
    · rcases List.mem_singleton.mp hs with rfl
      decide

/-! Claim theorems. -/

/-- C10: rendering an attribution whose licenses list is empty does not
fail; the block header interpolates the undefined first element as the
literal string "undefined", so the header ends in "| undefined". -/
theorem c10_empty_licenses_renders_undefined (versionsPath : Option String)
    (attr : Attribution) (h : attr.licenses = []) :
    headerLine versionsPath attr =
      "** " ++ (if versionsPath.isSome then attr.packageName else attr.packageFqn) ++
      " - " ++ attr.url ++ " | " ++ "undefined" := by
  unfold headerLine
  rw [h]
  rfl

/-- Witness for C10 at a concrete attribution with no licenses. -/
theorem c10_witness :
    headerLine none
      { packageFqn := "dep1@1.0.0", packageName := "dep1", packageVersion := "1.0.0"
        url := "https://www.npmjs.com/package/dep1/v/1.0.0", licenses := [] } =
      "** dep1@1.0.0 - https://www.npmjs.com/package/dep1/v/1.0.0 | undefined" :=
  (c10_empty_licenses_renders_undefined none
    { packageFqn := "dep1@1.0.0", packageName := "dep1", packageVersion := "1.0.0"
      url := "https://www.npmjs.com/package/dep1/v/1.0.0", licenses := [] } rfl).trans
    (by decide)

/-- C4: attributing an empty (filtered) dependency closure yields no
attributions; rendering no attributions yields the empty document and the
versions JSON of the empty object; rendering at least one attribution
yields a document beginning with the package heading line followed by a
blank line. -/
theorem c4_empty_and_header (fetch : Probe) (fs : FS) (dependenciesRoot : String)
    (packageName : String) (versionsPath : Option String) (attrs : List Attribution) :
    attribute' fetch fs dependenciesRoot versionsPath [] = Except.ok [] ∧
    render packageName versionsPath [] = { licenses := "", versions := "\x7b\x7d" } ∧
    (attrs ≠ [] → '\r' ∉ packageName.data →
      ∃ rest, (render packageName versionsPath attrs).licenses =
        "The " ++ packageName ++
          " package includes the following third-party software/licensing:" ++ "\n\n" ++ rest) := by
  refine ⟨by simp [attribute'], by rfl, ?_⟩
  intro hne hcr
  have hordne : orderedAttributions attrs ≠ [] := by
    intro e
    exact hne (List.nil_perm.mp (e ▸ orderedAttributions_perm attrs))
  obtain ⟨o, ot, hord⟩ := List.exists_cons_of_ne_nil hordne
  have hpre : preambleOf packageName attrs =
      ["The " ++ packageName ++ " package includes the following third-party software/licensing:", ""] := by
    unfold preambleOf
    rw [if_pos]
    simpa [List.length_pos] using hne
  refine ⟨joinSep "\n" (replaceCRLF (headerLine versionsPath o) ::
    ((bodyLines o ++ [ATTRIBUTION_SEPARATOR]) ++ ot.flatMap (attrLines versionsPath)).map replaceCRLF), ?_⟩
  show (render packageName versionsPath attrs).licenses = _
  unfold render
  rw [hord, hpre]
  rw [show ("\n\n" : String) = "\n" ++ "\n" from by decide]
  simp only [attrLines, List.flatMap_cons, List.cons_append, List.nil_append,
    List.map_cons, List.map_append, joinSep]
  rw [replaceCRLF_of_noCR _ (noCR_header packageName hcr)]
  rw [show replaceCRLF "" = "" from by simp [replaceCRLF, replCRLF]]
  simp only [String.append_assoc, String.empty_append]
  simp [List.append_eq, List.flatMap, List.map_append, List.append_assoc]

/-- Witness for C4 at a concrete configuration: empty closure conjuncts
and the heading of a one-attribution document. -/
theorem c4_witness :
    attribute' (fun _ _ _ => none) emptyFS "/r" none [] = Except.ok [] ∧
    render "consumer" none [] = { licenses := "", versions := "\x7b\x7d" } ∧
    ∃ rest, (render "consumer" none
        [{ packageFqn := "dep1@1.0.0", packageName := "dep1", packageVersion := "1.0.0"
           url := "u", licenses := ["MIT"] }]).licenses =
      "The " ++ "consumer" ++
        " package includes the following third-party software/licensing:" ++ "\n\n" ++ rest := by
  have c := c4_empty_and_header (fun _ _ _ => none) emptyFS "/r" "consumer" none
    [{ packageFqn := "dep1@1.0.0", packageName := "dep1", packageVersion := "1.0.0"
       url := "u", licenses := ["MIT"] }]
  exact ⟨c.1, c.2.1, c.2.2 (List.cons_ne_nil _ _) (by decide)⟩

/-- C3: validate emits, per attribution, exactly the license violation
its licenses-list length dictates: the code's three filter passes are a
permutation of the per-attribution case analysis
(`claimedLicenseViolations`), that case analysis emits at most one
violation per attribution, it emits none exactly when the attribution has
exactly one license whose lowercased value is in the lowercased
allow-list, and an allow-list entry "MIT" accepts a declared "mit". -/
theorem c3_license_violation_per_attribution (rawAllowed : List String) (attrs : List Attribution) :
    (licenseViolations (rawAllowed.map toLowerCase) attrs).Perm
      (attrs.flatMap (claimedLicenseViolations rawAllowed)) ∧
    (∀ a : Attribution, (claimedLicenseViolations rawAllowed a).length ≤ 1) ∧
    (∀ a : Attribution, claimedLicenseViolations rawAllowed a = [] ↔
      (a.licenses.length = 1 ∧
        (rawAllowed.map toLowerCase).contains (toLowerCase (a.licenses.headD "")) = true)) ∧
    licenseViolations (["MIT"].map toLowerCase)
      [{ packageFqn := "dep1@1.0.0", packageName := "dep1", packageVersion := "1.0.0"
         url := "u", licenses := ["mit"] }] = [] := by
  refine ⟨licenseViolations_perm_flatMap rawAllowed attrs, ?_, ?_, by decide⟩
  · intro a
    unfold claimedLicenseViolations
    split_ifs <;> simp
  · intro a
    unfold claimedLicenseViolations
    split_ifs with hA hB hC
    · simp only [List.cons_ne_nil, false_iff, not_and]
      intro _ hc
      exact hA.2 hc
    · simp only [List.cons_ne_nil, false_iff, not_and]
      intro h
      omega
    · simp only [List.cons_ne_nil, false_iff, not_and]
      intro h
      omega
    · simp only [true_iff]
      have hlen : a.licenses.length = 1 := by
        rcases Nat.lt_trichotomy a.licenses.length 1 with h | h | h
        · exact absurd (by omega) hB
        · exact h
        · exact absurd h hC
      refine ⟨hlen, ?_⟩
      by_contra hc
      exact hA ⟨hlen, hc⟩

/-- C2: validate reports missing-licenses exactly when the licenses file
is absent, outdated-licenses exactly when it is present with content
different from the canonical document, missing-versions exactly when a
versions path is configured and that file is absent, outdated-versions
exactly when the versions file is present with content different from the
canonical versions JSON; each of these four kinds carries the fix closure,
and that closure is the flush operation. -/
theorem c2_file_violations (A : AttributionsState) (fs : FS) :
    ((∃ v ∈ validate A fs, v.type = ViolationType.MISSING_LICENSES) ↔
      readFile fs A.licensesPath = none) ∧
    ((∃ v ∈ validate A fs, v.type = ViolationType.OUTDATED_LICENSES) ↔
      ∃ c, readFile fs A.licensesPath = some c ∧ c ≠ A.licenses) ∧
    ((∃ v ∈ validate A fs, v.type = ViolationType.MISSING_VERSIONS) ↔
      ∃ p, A.versionsPath = some p ∧ readFile fs p = none) ∧
    ((∃ v ∈ validate A fs, v.type = ViolationType.OUTDATED_VERSIONS) ↔
      ∃ p c, A.versionsPath = some p ∧ readFile fs p = some c ∧ c ≠ A.versions) ∧
    (∀ v ∈ validate A fs,
      (v.type = ViolationType.MISSING_LICENSES ∨ v.type = ViolationType.OUTDATED_LICENSES ∨
        v.type = ViolationType.MISSING_VERSIONS ∨ v.type = ViolationType.OUTDATED_VERSIONS) →
      v.fix = some FixOp.flush) ∧
    (∀ fs2 : FS, applyFix A FixOp.flush fs2 = flush A fs2) := by
  refine ⟨(mem_validate_missingLicenses A fs).trans (missingLicenses_iff A fs),
    (mem_validate_outdatedLicenses A fs).trans (outdatedLicenses_iff A fs),
    (mem_validate_missingVersions A fs).trans (missingVersions_iff A fs),
    (mem_validate_outdatedVersions A fs).trans (outdatedVersions_iff A fs),
    ?_, fun _ => rfl⟩
  intro v hv ht
  simp only [validate, List.mem_append, mem_ite_singleton] at hv
  rcases hv with (((⟨hb, rfl⟩ | ⟨hb, rfl⟩) | ⟨hb, rfl⟩) | ⟨hb, rfl⟩) | h5
  · rfl
  · rfl
  · rfl
  · rfl
  · rcases (licenseViolations_types _ _ v h5).1 with e | e | e <;>
      rcases ht with t | t | t | t <;> rw [t] at e <;> simp at e

/-- Witness for C2: on the empty filesystem, a concrete state yields a
missing-licenses violation. -/
theorem c2_witness :
    ∃ v ∈ validate
      { packageDir := "/pkg", packageName := "p", licensesPath := "/pkg/TPL"
        versionsPath := none, allowedLicenses := [], attributions := []
        licenses := "L", versions := "\x7b\x7d" } emptyFS,
      v.type = ViolationType.MISSING_LICENSES :=
  (c2_file_violations
    { packageDir := "/pkg", packageName := "p", licensesPath := "/pkg/TPL"
      versionsPath := none, allowedLicenses := [], attributions := []
      licenses := "L", versions := "\x7b\x7d" } emptyFS).1.mpr rfl

set_option maxRecDepth 10000 in
/-- Counterexample to C5 as stated: an `Attributions` object built by the
real constructor from concrete inputs (one dependency whose probe entry
declares no license) still reports a no-license violation on the second
validation run after validate-with-fix; license violations carry no fixer,
so the second run is not empty. -/
theorem c5_counterexample :
    (construct (fun _ _ => false) cexProbe emptyFS cexProps).toOption.map
      (fun A => validate A (validateAndFix A emptyFS).2) =
    some [{ type := ViolationType.NO_LICENSE
            message := "Dependency dep1@1.0.0 has no license", fix := none }] := by
  decide

/-- C5 amended: when the configured versions path is not the same file as
the licenses path, running validate-with-fix and then validate again
yields on the second run exactly the license violations of the
attributions (so the second run is empty precisely when every attribution
passes the license checks; the four artifact violations never recur). -/
theorem c5_fix_then_validate (A : AttributionsState) (fs : FS)
    (hpath : ∀ p, A.versionsPath = some p → p ≠ A.licensesPath) :
    validate A (validateAndFix A fs).2 =
      licenseViolations A.allowedLicenses A.attributions := by
  have h2nd : (validateAndFix A fs).2 = (validate A fs).foldl (fixStep A) fs := rfl
  rw [h2nd]
  apply validate_of_flushed
  by_cases h1 : missingLicenses A fs = true
  · obtain ⟨v, hv, ht⟩ := (mem_validate_missingLicenses A fs).mpr h1
    exact fixable_flushed A hpath _ fs ⟨v, hv, validate_fix_types A fs v hv (Or.inl ht)⟩
  · by_cases h2 : outdatedLicenses A fs = true
    · obtain ⟨v, hv, ht⟩ := (mem_validate_outdatedLicenses A fs).mpr h2
      exact fixable_flushed A hpath _ fs
        ⟨v, hv, validate_fix_types A fs v hv (Or.inr (Or.inl ht))⟩
    · by_cases h3 : missingVersions A fs = true
      · obtain ⟨v, hv, ht⟩ := (mem_validate_missingVersions A fs).mpr h3
        exact fixable_flushed A hpath _ fs
          ⟨v, hv, validate_fix_types A fs v hv (Or.inr (Or.inr (Or.inl ht)))⟩
      · by_cases h4 : outdatedVersions A fs = true
        · obtain ⟨v, hv, ht⟩ := (mem_validate_outdatedVersions A fs).mpr h4
          exact fixable_flushed A hpath _ fs
            ⟨v, hv, validate_fix_types A fs v hv (Or.inr (Or.inr (Or.inr ht)))⟩
        · apply step_preserve A hpath
          cases hr : readFile fs A.licensesPath with
          | none => exact absurd ((missingLicenses_iff A fs).mpr hr) h1
          | some c =>
            have hc : c = A.licenses := by
              by_contra hne
              exact h2 ((outdatedLicenses_iff A fs).mpr ⟨c, hr, hne⟩)
            refine ⟨by rw [hr, hc], ?_⟩
            intro p hp
            cases hrv : readFile fs p with
            | none => exact absurd ((missingVersions_iff A fs).mpr ⟨p, hp, hrv⟩) h3
            | some cv =>
              have hcv : cv = A.versions := by
                by_contra hne
                exact h4 ((outdatedVersions_iff A fs).mpr ⟨p, cv, hp, hrv, hne⟩)
              rw [hcv]

/-- Witness for the amended C5 at a concrete state without a versions
path. -/
theorem c5_witness :
    validate
      { packageDir := "/pkg", packageName := "p", licensesPath := "/pkg/TPL"
        versionsPath := none, allowedLicenses := [], attributions := []
        licenses := "L", versions := "\x7b\x7d" }
      (validateAndFix
        { packageDir := "/pkg", packageName := "p", licensesPath := "/pkg/TPL"
          versionsPath := none, allowedLicenses := [], attributions := []
          licenses := "L", versions := "\x7b\x7d" } emptyFS).2 =
    licenseViolations [] [] :=
  c5_fix_then_validate
    { packageDir := "/pkg", packageName := "p", licensesPath := "/pkg/TPL"
      versionsPath := none, allowedLicenses := [], attributions := []
      licenses := "L", versions := "\x7b\x7d" } emptyFS (fun _ hp => nomatch hp)

set_option maxRecDepth 10000 in
/-- Counterexample to C6 as stated: for an attribution built by the real
collection code from a probe entry whose notice file exists but is empty,
the noticeText is present (the empty string) and yet the rendered block
body is the licenseText, not the noticeText. -/
theorem c6_counterexample :
    (buildAttribution cexFS none cexPkg2 cexInfo).toOption.map
      (fun a => (a.noticeText, bodyLines a)) =
    some (some "", ["LICENSE TEXT"]) := by
  decide

/-- C6 amended: the block body is the noticeText when present and
non-empty, else the licenseText when present and non-empty, else nothing;
and the licenseText of a built attribution is the content of the probe's
licenseFile when that (non-empty) name does not end in ".md"
case-insensitively, and is absent when the name ends in ".md" or no
license file was reported. -/
theorem c6_body_and_license_text :
    (∀ (attr : Attribution) (n : String), attr.noticeText = some n → n ≠ "" →
      bodyLines attr = [n]) ∧
    (∀ (attr : Attribution) (l : String),
      (attr.noticeText = none ∨ attr.noticeText = some "") →
      attr.licenseText = some l → l ≠ "" → bodyLines attr = [l]) ∧
    (∀ attr : Attribution,
      (attr.noticeText = none ∨ attr.noticeText = some "") →
      (attr.licenseText = none ∨ attr.licenseText = some "") →
      bodyLines attr = []) ∧
    (∀ (fs : FS) (vp : Option String) (dep : Package) (info : ModuleInfo) (a : Attribution),
      buildAttribution fs vp dep info = Except.ok a →
      (info.licenseFile = none → a.licenseText = none) ∧
      (∀ f, info.licenseFile = some f → endsWithJS (toLowerCase f) ".md" = true →
        a.licenseText = none) ∧
      (∀ f, info.licenseFile = some f → endsWithJS (toLowerCase f) ".md" = false → f ≠ "" →
        a.licenseText = readFile fs f)) := by
  refine ⟨?_, ?_, ?_, ?_⟩
  · intro attr n hn hne
    simp [bodyLines, jsTruthy, hn, hne]
  · intro attr l hnt hl hlne
    rcases hnt with hnt | hnt <;> simp [bodyLines, jsTruthy, hnt, hl, hlne]
  · intro attr hnt hlt
    rcases hnt with hnt | hnt <;> rcases hlt with hlt | hlt <;>
      simp [bodyLines, jsTruthy, hnt, hlt]
  · intro fs vp dep info a hok
    obtain ⟨nt, lt, hnt, hlt, rfl⟩ := buildAttribution_ok_parts fs vp dep info a hok
    refine ⟨?_, ?_, ?_⟩
    · intro hlf
      rw [show licenseFileOf info = none by simp [licenseFileOf, hlf]] at hlt
      simp only [readOpt] at hlt
      injection hlt with hlt
      exact hlt.symm
    · intro f hf hmd
      rw [show licenseFileOf info = none by simp [licenseFileOf, hf, hmd]] at hlt
      simp only [readOpt] at hlt
      injection hlt with hlt
      exact hlt.symm
    · intro f hf hmd hfne
      rw [show licenseFileOf info = some f by simp [licenseFileOf, hf, hmd]] at hlt
      simp only [readOpt, if_neg hfne] at hlt
      cases hread : readFile fs f with
      | none => rw [hread] at hlt; simp at hlt
      | some c =>
        rw [hread] at hlt
        injection hlt with hlt
        exact hlt.symm

/-- Witness for the amended C6 at concrete attributions. -/
theorem c6_witness :
    bodyLines
      { packageFqn := "d@1", packageName := "d", packageVersion := "1", url := "u"
        licenses := ["MIT"], licenseText := some "L", noticeText := some "N" } = ["N"] ∧
    bodyLines
      { packageFqn := "d@1", packageName := "d", packageVersion := "1", url := "u"
        licenses := ["MIT"], licenseText := some "L", noticeText := some "" } = ["L"] ∧
    bodyLines
      { packageFqn := "d@1", packageName := "d", packageVersion := "1", url := "u"
        licenses := ["MIT"], licenseText := none, noticeText := none } = [] :=
  ⟨c6_body_and_license_text.1 _ "N" rfl (by decide),
   c6_body_and_license_text.2.1 _ "L" (Or.inr rfl) rfl (by decide),
   c6_body_and_license_text.2.2.1 _ (Or.inl rfl) (Or.inl rfl)⟩

/-- C8: a dependency found by the global probe in the dependencies root
is attributed from that entry; a dependency missing globally falls back
to a probe run in its own directory; a dependency missing from both
probes makes the whole attribution run fail with the thrown
"Unable to locate license information" error (not a violation). -/
theorem c8_probe_fallback (fetch : Probe) (fs : FS) (root : String)
    (packages : List String) (vp : Option String) (dep : Package) :
    (∀ i, fetch root packages (pkgId dep) = some i →
      attributeOne fetch fs root packages vp dep = buildAttribution fs vp dep i) ∧
    (fetch root packages (pkgId dep) = none →
      ∀ i, fetch dep.path [pkgId dep] (pkgId dep) = some i →
        attributeOne fetch fs root packages vp dep = buildAttribution fs vp dep i) ∧
    (fetch root packages (pkgId dep) = none →
      fetch dep.path [pkgId dep] (pkgId dep) = none →
      attributeOne fetch fs root packages vp dep =
        Except.error ("Unable to locate license information for " ++ pkgId dep ++
          " (" ++ dep.path ++ ")")) ∧
    (∀ (deps : List Package) (d : Package), d ∈ deps →
      (∃ e, attributeOne fetch fs root (deps.map pkgId) vp d = Except.error e) →
      ∃ e, attribute' fetch fs root vp deps = Except.error e) := by
  refine ⟨?_, ?_, ?_, ?_⟩
  · intro i hi
    simp [attributeOne, hi]
  · intro hg i hi
    simp [attributeOne, hg, hi]
  · intro hg hl
    simp [attributeOne, hg, hl]
  · intro deps d hmem herr
    obtain ⟨e, he⟩ :=
      attributeAll_mem_error fetch fs root (deps.map pkgId) vp deps d hmem herr
    refine ⟨e, ?_⟩
    unfold attribute'
    rw [if_neg (by rintro rfl; simp at hmem)]
    exact he

/-- Witness for C8: with a probe that knows nothing, attribution of a
concrete dependency fails with the thrown error. -/
theorem c8_witness :
    attributeOne (fun _ _ _ => none) emptyFS "/r" ["dep1@1.0.0"] none cexPkg =
      Except.error ("Unable to locate license information for " ++ pkgId cexPkg ++
        " (" ++ cexPkg.path ++ ")") ∧
    ∃ e, attribute' (fun _ _ _ => none) emptyFS "/r" none [cexPkg] = Except.error e :=
  ⟨(c8_probe_fallback (fun _ _ _ => none) emptyFS "/r" ["dep1@1.0.0"] none cexPkg).2.2.1
      rfl rfl,
   (c8_probe_fallback (fun _ _ _ => none) emptyFS "/r" ([cexPkg].map pkgId) none cexPkg).2.2.2
      [cexPkg] cexPkg (List.mem_singleton_self cexPkg)
      ⟨"Unable to locate license information for " ++ pkgId cexPkg ++
        " (" ++ cexPkg.path ++ ")",
       (c8_probe_fallback (fun _ _ _ => none) emptyFS "/r" ([cexPkg].map pkgId) none
          cexPkg).2.2.1 rfl rfl⟩⟩

/-- C7: a dependency whose name matches the configured exclude pattern
contributes neither an attribution block (no attribution carries its
name) nor a versions-index entry, because the constructor filters the
dependency list once before both attribution and version collection; a
dependency whose name does not match survives the filter. -/
theorem c7_exclude_filter (test : String → String → Bool) (fetch : Probe) (fs : FS)
    (props : AttributionsProps) (A : AttributionsState) (pat : String)
    (hex : props.exclude = some pat) (hpat : pat ≠ "")
    (hok : construct test fetch fs props = Except.ok A) :
    ∀ dep ∈ props.dependencies,
      (test pat dep.name = true →
        (∀ a ∈ A.attributions, a.packageName ≠ dep.name) ∧
        (∀ kv ∈ collectVersions (orderedAttributions A.attributions), kv.1 ≠ dep.name)) ∧
      (test pat dep.name = false →
        dep ∈ filterDeps props.exclude test props.dependencies) := by
  obtain ⟨attrs, hat, hA⟩ := construct_ok_parts test fetch fs props A hok
  have hnames := attribute'_names _ _ _ _ _ _ hat
  intro dep hdep
  constructor
  · intro ht
    have hexcl : ∀ a ∈ A.attributions, a.packageName ≠ dep.name := by
      rw [hA]
      intro a ha he
      have hm : a.packageName ∈ attrs.map (fun a => a.packageName) :=
        List.mem_map_of_mem _ ha
      rw [hnames, hex] at hm
      obtain ⟨d, hd, hdn⟩ := List.mem_map.mp hm
      exact filterDeps_excluded pat hpat test props.dependencies dep ht d hd (hdn.trans he)
    refine ⟨hexcl, ?_⟩
    intro kv hkv he
    have hk : kv.1 ∈ (collectVersions (orderedAttributions A.attributions)).map Prod.fst :=
      List.mem_map_of_mem _ hkv
    have hko := collectVersions_keys _ _ hk
    have hperm := (orderedAttributions_perm A.attributions).map (fun a => a.packageName)
    have hmem : kv.1 ∈ A.attributions.map (fun a => a.packageName) := hperm.mem_iff.mp hko
    obtain ⟨a, ha, han⟩ := List.mem_map.mp hmem
    exact hexcl a ha (han.trans he)
  · intro hf
    rw [hex]
    exact filterDeps_kept pat test props.dependencies dep hdep hf

set_option maxRecDepth 10000 in
/-- Witness for C7 at a concrete configuration excluding its only
dependency. -/
theorem c7_witness :
    (∀ a ∈ ([] : List Attribution), a.packageName ≠ cexPkg.name) ∧
    (∀ kv ∈ collectVersions (orderedAttributions ([] : List Attribution)),
      kv.1 ≠ cexPkg.name) := by
  have h := c7_exclude_filter (fun p n => n = p) cexProbe emptyFS
    { packageDir := "/pkg", packageName := "consumer", dependencies := [cexPkg]
      dependenciesRoot := "/pkg/node_modules", licensesPath := "THIRD_PARTY_LICENSES"
      allowedLicenses := ["Apache-2.0"], exclude := some "dep1" }
    { packageDir := "/pkg", packageName := "consumer"
      licensesPath := "/pkg/THIRD_PARTY_LICENSES", versionsPath := none
      allowedLicenses := ["apache-2.0"], attributions := []
      licenses := "", versions := "\x7b\x7d" }
    "dep1" rfl (by decide) (by rfl) cexPkg (List.mem_singleton_self _)
  exact h.1 (by decide)

/-- C9: for fixed probe responses, filesystem contents and configuration
the whole attributions computation is a function, so two runs produce
equal (byte-identical) documents and versions JSON; and the renderer
applies the CRLF-to-LF normalization to every content entry, so a
document built from CRLF-clean inputs (every carriage return part of a
CRLF pair) contains no carriage return at all. -/
theorem c9_determinism_crlf :
    (∀ (test : String → String → Bool) (fetch : Probe) (fs : FS)
      (props : AttributionsProps) (A B : AttributionsState),
      construct test fetch fs props = Except.ok A →
      construct test fetch fs props = Except.ok B →
      A.licenses = B.licenses ∧ A.versions = B.versions) ∧
    (∀ (packageName : String) (versionsPath : Option String) (attrs : List Attribution),
      loneCRFreeS packageName = true →
      (∀ a ∈ attrs, attrCRFree a = true) →
      '\r' ∉ ((render packageName versionsPath attrs).licenses).data) := by
  constructor
  · intro test fetch fs props A B hA hB
    rw [hA] at hB
    injection hB with hB
    rw [hB]
    exact ⟨rfl, rfl⟩
  · intro pn vp attrs hpn hattrs
    show '\r' ∉ (joinSep "\n" ((preambleOf pn attrs ++
      (orderedAttributions attrs).flatMap (attrLines vp)).map replaceCRLF)).data
    apply noCR_joinSep
    intro s hs
    obtain ⟨e, he, rfl⟩ := List.mem_map.mp hs
    show '\r' ∉ replCRLF e.data
    apply noCR_replCRLF_of_loneCRFree
    have hcr : loneCRFreeS e = true := by
      rcases List.mem_append.mp he with he | he
      · unfold preambleOf at he
        by_cases hne : attrs.length > 0
        · rw [if_pos hne] at he
          rcases List.mem_cons.mp he with rfl | he
          · refine loneCRFreeS_append _ _ (loneCRFreeS_append _ _ (by decide) hpn) (by decide)
          · rcases List.mem_singleton.mp he with rfl
            decide
        · rw [if_neg hne] at he
          cases he
      · obtain ⟨a, ha, hae⟩ := List.mem_flatMap.mp he
        have haf : attrCRFree a = true :=
          hattrs a ((orderedAttributions_perm attrs).subset ha)
        exact attrLines_crFree vp a haf e hae
    exact hcr

/-- Witness for C9: two identical concrete runs have equal artifacts, and
a concrete document embedding CRLF text contains no carriage return. -/
theorem c9_witness :
    (cexEmptyState.licenses = cexEmptyState.licenses ∧
      cexEmptyState.versions = cexEmptyState.versions) ∧
    '\r' ∉ ((render "consumer" none
      [{ packageFqn := "dep1@1.0.0", packageName := "dep1", packageVersion := "1.0.0"
         url := "u", licenses := ["MIT"], licenseText := some "line1\r\nline2" }]).licenses).data :=
  ⟨c9_determinism_crlf.1 (fun _ _ => false) cexProbe emptyFS cexEmptyProps
      cexEmptyState cexEmptyState (by rfl) (by rfl),
   c9_determinism_crlf.2 "consumer" none
    [{ packageFqn := "dep1@1.0.0", packageName := "dep1", packageVersion := "1.0.0"
       url := "u", licenses := ["MIT"], licenseText := some "line1\r\nline2" }]
    (by decide) (by decide)⟩

end Backpack
